import Mathlib

/-!
Verification of the GTOS 1.0 shell emulator (GTOS_1.0.py) against its
natural-language specification.  The Python source is shallowly embedded:
pure fragments become Lean functions on lists and strings, the stateful
dispatcher becomes explicit state passing with a fuel bound standing for
the call stack, and fallible steps return Option or an explicit result
type.  Strings are modelled by the Lean String type (a list of
characters), matching the per-character semantics the Python code relies
on; whitespace is the ASCII whitespace set that the relevant inputs use.
-/

namespace GTOS

/-- Whitespace test used by the Python methods str.split and str.strip
(ASCII whitespace: space, tab, newline, carriage return, vertical tab,
form feed). -/
def isSpace (c : Char) : Bool :=
  c == ' ' || c == '\t' || c == '\n' || c == '\r' || c == '\x0b' || c == '\x0c'

/-- Tokenizer for the Python expression command.split() with no argument:
splits on runs of whitespace and discards empty tokens.  The accumulator
holds the characters of the current token in reverse. -/
def tokenizeAux : List Char → List Char → List (List Char)
  | [], acc => if acc.isEmpty then [] else [acc.reverse]
  | c :: rest, acc =>
    if isSpace c then
      if acc.isEmpty then tokenizeAux rest [] else acc.reverse :: tokenizeAux rest []
    else
      tokenizeAux rest (c :: acc)

/-- Python command.split() with no separator argument. -/
def pySplit (s : String) : List String :=
  (tokenizeAux s.data []).map (fun cs => String.mk cs)

/-- Python expression " ".join(tokens), as used at line 373 of the source. -/
def joinT : List String → String
  | [] => ""
  | [t] => t
  | t :: ts => t ++ " " ++ joinT ts

/-- Python s.strip() with no argument, restricted to ASCII whitespace. -/
def stripPy (s : String) : String :=
  String.mk (((s.data.dropWhile isSpace).reverse.dropWhile isSpace).reverse)

/-- Python expression path.lstrip(slash): drops every leading slash. -/
def lstripSlash (s : String) : String :=
  String.mk (s.data.dropWhile (fun c => c == '/'))

/-- Tests whether the first character of s is a slash. -/
def headIsSlash (s : String) : Bool :=
  match s.data with
  | [] => false
  | c :: _ => c == '/'

/-- Tests whether the last character of s is a slash. -/
def lastIsSlash (s : String) : Bool :=
  match s.data.getLast? with
  | some c => c == '/'
  | none => false

/-- Python os.path.join(a, b) for posix paths and two arguments: if b is
absolute it replaces a; otherwise b is appended to a, inserting a slash
unless a is empty or already ends with one. -/
def pyJoin (a b : String) : String :=
  if headIsSlash b then b
  else if a = "" || lastIsSlash a then a ++ b
  else a ++ "/" ++ b

/-- FileSystem._full_path from lines 28 and 29 of the source:
os.path.join(self.root_dir, path.lstrip(slash)). -/
def full_path (root_dir path : String) : String :=
  pyJoin root_dir (lstripSlash path)

/-- Splitter for the Python expression path.split(slash): keeps empty
components, so a leading slash yields a leading empty component. -/
def splitSlashAux : List Char → List Char → List String
  | [], acc => [String.mk acc.reverse]
  | c :: rest, acc =>
    if c == '/' then String.mk acc.reverse :: splitSlashAux rest []
    else splitSlashAux rest (c :: acc)

/-- Python path.split(slash). -/
def splitSlash (s : String) : List String := splitSlashAux s.data []

/-- Number of leading slashes retained by os.path.normpath: 0 for a
relative path, 2 for a path starting with exactly two slashes, 1
otherwise. -/
def initialSlashes (p : String) : Nat :=
  match p.data with
  | '/' :: '/' :: '/' :: _ => 1
  | '/' :: '/' :: _ => 2
  | '/' :: _ => 1
  | _ => 0

/-- One step of the component loop of os.path.normpath (posix): empty and
dot components are dropped, a dot-dot component pops the previous
component when one is available and the path is not already at the root,
and every other component is appended. -/
def normComp (slashes : Nat) (acc : List String) (comp : String) : List String :=
  if comp == "" || comp == "." then acc
  else if !(comp == "..") || (slashes == 0 && acc.isEmpty)
      || (!acc.isEmpty && (acc.getLast? == some "..")) then
    acc ++ [comp]
  else if !acc.isEmpty then acc.dropLast
  else acc

/-- Python expression slash.join(comps). -/
def joinSlash : List String → String
  | [] => ""
  | [t] => t
  | t :: ts => t ++ "/" ++ joinSlash ts

/-- Python os.path.normpath for posix paths: collapses empty and dot
components and resolves dot-dot components by pure path arithmetic.  This
is the normal form in which containment of one path in another is judged. -/
def normpath (p : String) : String :=
  if p = "" then "."
  else
    let slashes := initialSlashes p
    let comps := (splitSlash p).foldl (normComp slashes) []
    let out := String.mk (List.replicate slashes '/') ++ joinSlash comps
    if out = "" then "." else out

/-- Containment test: q denotes the root directory itself or a location
below it, once both paths are normalized. -/
def isDescendant (root q : String) : Bool :=
  let r := normpath root
  let n := normpath q
  n == r || (r ++ "/").data.isPrefixOf n.data

/-- Python s.lower() for the ASCII range that command and alias names use. -/
def lowerChar (c : Char) : Char :=
  if 'A' ≤ c ∧ c ≤ 'Z' then Char.ofNat (c.toNat + 32) else c

/-- Python s.lower() applied to a whole string. -/
def lowerPy (s : String) : String := String.mk (s.data.map lowerChar)

/-- Association list lookup, standing for membership plus indexing of a
Python dict; the alias table and the environment are such dicts. -/
def lookupA : List (String × String) → String → Option String
  | [], _ => none
  | p :: rest, k => if p.1 = k then some p.2 else lookupA rest k

/-- Python dict assignment m[k] = v: overwrites in place when the key is
present and appends otherwise, since dicts preserve insertion order. -/
def insertA : List (String × String) → String → String → List (String × String)
  | [], k, v => [(k, v)]
  | p :: rest, k, v => if p.1 = k then (k, v) :: rest else p :: insertA rest k v

/-- Python statement del m[k]. -/
def eraseA : List (String × String) → String → List (String × String)
  | [], _ => []
  | p :: rest, k => if p.1 = k then rest else p :: eraseA rest k

/-- Keys of the command registry self.commands built in Console.__init__,
lines 184 to 284 of the source, in order of appearance. -/
def registryKeys : List String :=
  ["about", "alias", "cal", "cat", "cd", "chmod", "chown", "clear",
   "cp", "date", "df", "du", "echo", "env", "export", "find",
   "grep", "head", "help", "history", "kill", "ln", "ls", "man",
   "mkdir", "mv", "ps", "pwd", "rm", "rmdir", "sleep", "sort",
   "top", "touch", "uname", "unalias", "uniq", "uptime", "wc", "whereis",
   "which", "whoami", "tail", "cut", "paste", "tr", "sed", "awk",
   "printf", "test", "expr", "bc", "time", "watch", "yes", "seq",
   "shuf", "nl", "fold", "expand", "unexpand", "join", "comm", "diff",
   "patch", "cmp", "sum", "cksum", "md5sum", "sha1sum", "sha256sum", "factor",
   "numfmt", "od", "hexdump", "strings", "file", "mime", "stat", "mktemp",
   "realpath", "dirname", "basename", "pathchk", "readlink", "link", "unlink", "truncate",
   "split", "csplit", "fmt", "pr", "ul", "col", "colrm", "column",
   "rev", "tac", "tsort"]

/-- Keys of the help_text table inside Console.help, lines 545 to 643 of
the source, in order of appearance. -/
def helpKeys : List String :=
  ["about", "alias", "awk", "basename", "bc", "cal", "cat", "cd",
   "chmod", "chown", "cksum", "clear", "cmp", "col", "colrm", "column",
   "comm", "cp", "csplit", "cut", "date", "df", "diff", "dirname",
   "du", "echo", "env", "expand", "expr", "factor", "file", "find",
   "fmt", "fold", "grep", "head", "hexdump", "history", "join", "kill",
   "link", "ln", "ls", "man", "md5sum", "mime", "mkdir", "mktemp",
   "mv", "nl", "numfmt", "od", "paste", "patch", "pathchk", "pr",
   "printf", "ps", "pwd", "readlink", "realpath", "rev", "rm", "rmdir",
   "sed", "seq", "sha1sum", "sha256sum", "shuf", "sleep", "sort", "split",
   "stat", "strings", "sum", "tac", "tail", "test", "time", "top",
   "touch", "tr", "truncate", "tsort", "ul", "unalias", "uname", "unexpand",
   "uniq", "unlink", "uptime", "watch", "wc", "whereis", "which", "whoami",
   "yes"]

/-- Keys of the man_pages table inside Console.man, lines 675 to 773 of
the source, in order of appearance. -/
def manKeys : List String :=
  ["about", "alias", "awk", "basename", "bc", "cal", "cat", "cd",
   "chmod", "chown", "cksum", "clear", "cmp", "col", "colrm", "column",
   "comm", "cp", "csplit", "cut", "date", "df", "diff", "dirname",
   "du", "echo", "env", "expand", "expr", "factor", "file", "find",
   "fmt", "fold", "grep", "head", "hexdump", "history", "join", "kill",
   "link", "ln", "ls", "man", "md5sum", "mime", "mkdir", "mktemp",
   "mv", "nl", "numfmt", "od", "paste", "patch", "pathchk", "pr",
   "printf", "ps", "pwd", "readlink", "realpath", "rev", "rm", "rmdir",
   "sed", "seq", "sha1sum", "sha256sum", "shuf", "sleep", "sort", "split",
   "stat", "strings", "sum", "tac", "tail", "test", "time", "top",
   "touch", "tr", "truncate", "tsort", "ul", "unalias", "uname", "unexpand",
   "uniq", "unlink", "uptime", "watch", "wc", "whereis", "which", "whoami",
   "yes"]

/-- Mutable state of the Console object as far as the examined commands
touch it: alias table, environment table, tracked current directory,
command history, and the sequence of lines printed to the terminal. -/
structure ConsoleState where
  aliases : List (String × String)
  environment : List (String × String)
  currentDir : String
  history : List String
  printed : List String
deriving DecidableEq

/-- FileSystem.change_dir from lines 35 to 40 of the source: computes the
full path and reports whether it is an existing directory; isdir is the
oracle standing for os.path.isdir.  The call os.chdir performed on
success changes only the host process working directory, which nothing in
the examined claims reads back. -/
def change_dir (isdir : String → Bool) (root path : String) : Bool :=
  isdir (full_path root path)

/-- Message printed by Console.cd when change_dir fails. -/
def cdNotFoundMsg : String := "未找到目录"

/-- Usage message of Console.cd. -/
def cdUsage : String := "用法：cd <目录>"

/-- Console.cd from lines 390 to 397 of the source: with an argument,
joins it onto the tracked current directory, asks change_dir whether the
result is an existing directory, and updates the tracked directory on
success or prints the not-found message on failure; without arguments it
prints the usage line.  Quote characters of the original f-strings are
omitted from the modelled messages throughout. -/
def cd (isdir : String → Bool) (root : String) (st : ConsoleState)
    (args : List String) : ConsoleState :=
  match args with
  | [] => { st with printed := st.printed ++ [cdUsage] }
  | a0 :: _ =>
    if change_dir isdir root (pyJoin st.currentDir a0) then
      { st with currentDir := pyJoin st.currentDir a0 }
    else
      { st with printed := st.printed ++ [cdNotFoundMsg] }

/-- Handlers for the commands whose state effects the claims examine,
from Console.alias (783), Console.unalias (790), Console.export (800),
Console.cd (390) and Console.pwd (464).  Every other registered handler
only reads state and prints; their output is supplied by the oracle
parameter named output, since it depends on the real file system.  That
the remaining handlers never assign self.aliases, self.environment or
self.current_dir is checked against the source: those attributes are
assigned only at lines 785, 793, 802 and 393. -/
def runHandler (isdir : String → Bool) (root : String)
    (output : String → List String → ConsoleState → List String)
    (cmd : String) (args : List String) (st : ConsoleState) : ConsoleState :=
  if cmd = "alias" then
    match args with
    | [a0, a1] =>
      { st with aliases := insertA st.aliases a0 a1,
                printed := st.printed ++ ["别名 " ++ a0 ++ " 已设置为 " ++ a1] }
    | _ => { st with printed := st.printed ++ ["用法：alias <别名> <命令>"] }
  else if cmd = "unalias" then
    match args with
    | [] => { st with printed := st.printed ++ ["用法：unalias <别名>"] }
    | a0 :: _ =>
      if (lookupA st.aliases a0).isSome then
        { st with aliases := eraseA st.aliases a0,
                  printed := st.printed ++ ["别名 " ++ a0 ++ " 已删除"] }
      else { st with printed := st.printed ++ ["未找到别名 " ++ a0] }
  else if cmd = "export" then
    match args with
    | [a0, a1] =>
      { st with environment := insertA st.environment a0 a1,
                printed := st.printed ++ ["环境变量 " ++ a0 ++ " 已设置为 " ++ a1] }
    | _ => { st with printed := st.printed ++ ["用法：export <变量名> <值>"] }
  else if cmd = "cd" then cd isdir root st args
  else if cmd = "pwd" then { st with printed := st.printed ++ [st.currentDir] }
  else { st with printed := st.printed ++ output cmd args st }

/-- Body of Console.execute_command, lines 363 to 383 of the source, with
the recursive self-call abstracted as the recurse parameter: tokenize the
line, return silently when there are no tokens, lower the first token,
substitute a matching alias expansion and recurse on the rebuilt line,
otherwise dispatch through the registry, printing a not-found message for
an unknown name. -/
def execStep (isdir : String → Bool) (root : String)
    (output : String → List String → ConsoleState → List String)
    (recurse : ConsoleState → String → Option ConsoleState)
    (st : ConsoleState) (command : String) : Option ConsoleState :=
  match pySplit command with
  | [] => some st
  | p :: args =>
    let cmd := lowerPy p
    match lookupA st.aliases cmd with
    | some exp => recurse st (exp ++ " " ++ joinT args)
    | none =>
      if cmd ∈ registryKeys then some (runHandler isdir root output cmd args st)
      else some { st with printed := st.printed ++ ["未找到命令 " ++ cmd] }

/-- Console.execute_command with its alias recursion bounded by fuel.  A
none result means the chain of alias expansions is longer than the fuel,
so the unbounded original would still be recursing at that depth; the
source itself has no depth bound and no cycle check. -/
def execCmd (isdir : String → Bool) (root : String)
    (output : String → List String → ConsoleState → List String) :
    Nat → ConsoleState → String → Option ConsoleState
  | 0 => execStep isdir root output (fun _ _ => none)
  | fuel + 1 => execStep isdir root output (execCmd isdir root output fuel)

/-- Result of one REPL iteration: the loop stops, or continues with a new
state, or the dispatched command is still expanding aliases at the given
fuel bound. -/
inductive ReplResult
  | exit (st : ConsoleState)
  | next (st : ConsoleState)
  | fuelOut
deriving DecidableEq

/-- One iteration of the REPL loop in Console.run, lines 325 to 331 of
the source: the raw input line is stripped, the literal word exit (case
insensitively) stops the loop before anything is recorded, and any other
line is appended to the command history and then executed. -/
def replStep (isdir : String → Bool) (root : String)
    (output : String → List String → ConsoleState → List String)
    (fuel : Nat) (st : ConsoleState) (rawLine : String) : ReplResult :=
  let command := stripPy rawLine
  if lowerPy command = "exit" then ReplResult.exit st
  else
    let st1 := { st with history := st.history ++ [command] }
    match execCmd isdir root output fuel st1 command with
    | some st2 => ReplResult.next st2
    | none => ReplResult.fuelOut

/-- Console state holding the single self-referential alias a, as created
by the input line alias a a, with everything else in its initial state. -/
def aliasCycleState : ConsoleState :=
  { aliases := [("a", "a")], environment := [], currentDir := "/",
    history := [], printed := [] }

/-- Initial console state: empty alias table, empty environment, root as
the current directory, nothing in the history, nothing printed. -/
def initState : ConsoleState :=
  { aliases := [], environment := [], currentDir := "/",
    history := [], printed := [] }

/-- Loop of Console.uniq, lines 919 to 923 of the source: the first
argument is the list named unique_lines holding the lines already seen,
the second is the remaining input; a line not yet seen is appended to the
seen list and emitted.  The code prints the strip of each emitted line,
but membership tests and emission order use the raw line. -/
def uniqAux : List String → List String → List String
  | _, [] => []
  | seen, l :: ls =>
    if l ∈ seen then uniqAux seen ls else l :: uniqAux (seen ++ [l]) ls

/-- Console.uniq as a function from the input lines to the emitted lines. -/
def uniqLines (lines : List String) : List String := uniqAux [] lines

/-- Index of the first occurrence of a in l, or the length of l when a is
absent; used to state the first-occurrence ordering of the uniq output. -/
def firstIdx : List String → String → Nat
  | [], _ => 0
  | b :: bs, a => if b = a then 0 else firstIdx bs a + 1

/-- Tags of the three output categories of Console.comm: lines only in
the first file, lines only in the second, and lines in both. -/
inductive CommTag
  | left
  | right
  | both
deriving DecidableEq

/-- Lexicographic strict comparison of character lists, the order Python
uses to compare strings by code point. -/
def lexLt : List Char → List Char → Bool
  | [], [] => false
  | [], _ :: _ => true
  | _ :: _, [] => false
  | a :: as, b :: bs => if a < b then true else if b < a then false else lexLt as bs

/-- Python string comparison s1 < s2. -/
def strLt (a b : String) : Bool := lexLt a.data b.data

/-- Merge walk of Console.comm, lines 1241 to 1258 of the source, over
two sorted duplicate-free line lists: a smaller line on the left goes out
with the left tag, a smaller line on the right with the right tag, and an
equal pair advances both sides with the both tag; the trailing while
loops flush the remainders. -/
def commMerge : List String → List String → List (CommTag × String)
  | [], l2 => l2.map (fun b => (CommTag.right, b))
  | a :: l1, [] => (CommTag.left, a) :: commMerge l1 []
  | a :: l1, b :: l2 =>
    if strLt a b then (CommTag.left, a) :: commMerge l1 (b :: l2)
    else if strLt b a then (CommTag.right, b) :: commMerge (a :: l1) l2
    else (CommTag.both, a) :: commMerge l1 l2
termination_by l1 l2 => l1.length + l2.length

/-- Lines of a given category in the comm output. -/
def commTagged (t : CommTag) (out : List (CommTag × String)) : List String :=
  (out.filter (fun p => p.1 == t)).map Prod.snd

/-- Strictly ascending in the Python string order: the shape of the lists
sorted(set(lines)) that Console.comm builds from each input file. -/
def SortedLt (l : List String) : Prop :=
  l.Pairwise (fun a b => strLt a b = true)

/-- Result of running a fragment of Python code that may raise NameError. -/
inductive PyEval (α : Type)
  | ok (v : α)
  | nameError
deriving DecidableEq

/-- The subscript crc32_table[i] evaluated at line 1364 of the source:
the name crc32_table is referenced there and assigned nowhere in the
repository, so evaluating the subscript raises NameError at every index. -/
def crc32_table_ref (_i : Nat) : PyEval Nat := PyEval.nameError

/-- Checksum loop of Console.cksum, lines 1362 to 1365 of the source: for
each byte it shifts the accumulator, consults crc32_table and xors; since
the table reference raises NameError, an iteration never completes. -/
def cksumLoop : List Nat → Nat → PyEval Nat
  | [], crc => PyEval.ok crc
  | b :: bs, crc =>
    match crc32_table_ref (Nat.xor (crc >>> 24) b) with
    | PyEval.nameError => PyEval.nameError
    | PyEval.ok t => cksumLoop bs (Nat.xor (crc <<< 8) t)

/-- Console.cksum on a readable file with the given bytes, size and name:
runs the loop from zero, masks the accumulator to 32 bits and formats the
printed line. -/
def cksumRun (data : List Nat) (size : Nat) (fname : String) : PyEval String :=
  match cksumLoop data 0 with
  | PyEval.ok crc =>
    PyEval.ok (toString (Nat.land crc 0xFFFFFFFF) ++ " " ++ toString size ++ " " ++ fname)
  | PyEval.nameError => PyEval.nameError

/-- Association list lookup for the graph dict of Console.tsort. -/
def lookupG : List (String × List String) → String → Option (List String)
  | [], _ => none
  | p :: rest, k => if p.1 = k then some p.2 else lookupG rest k

/-- The statements at lines 1790 to 1793 of the source: a node absent
from the graph dict is bound to an empty neighbor set. -/
def ensureKey (g : List (String × List String)) (k : String) :
    List (String × List String) :=
  if (lookupG g k).isSome then g else g ++ [(k, [])]

/-- The statement graph[u].add(v) at line 1794: Python sets are modelled
as insertion-ordered duplicate-free lists, which fixes the iteration
order that Python leaves to the hash function. -/
def addNeighbor (g : List (String × List String)) (u v : String) :
    List (String × List String) :=
  g.map (fun p => if p.1 = u then (p.1, if v ∈ p.2 then p.2 else p.2 ++ [v]) else p)

/-- Graph construction loop of Console.tsort, lines 1788 to 1794. -/
def buildGraph (edges : List (String × String)) : List (String × List String) :=
  edges.foldl (fun g e => addNeighbor (ensureKey (ensureKey g e.1) e.2) e.1 e.2) []

/-- Work items for the explicit-stack form of the nested function dfs of
Console.tsort: a visit frame enters a node, a finish frame records it in
the postorder result. -/
inductive Frame
  | visit (n : String)
  | finish (n : String)
deriving DecidableEq

/-- Explicit-stack form of the nested function dfs at lines 1797 to 1803
of the source: a visit frame skips an already visited node, or marks the
node visited and schedules its neighbors in order followed by its own
finish frame; a finish frame appends the node to the postorder result.
This is the standard defunctionalization of the recursive dfs, with fuel
bounding the number of steps taken. -/
def dfsRun : Nat → List (String × List String) → List Frame →
    List String → List String → Option (List String × List String)
  | _, _, [], vis, res => some (vis, res)
  | 0, _, _ :: _, _, _ => none
  | fuel + 1, g, Frame.visit n :: stk, vis, res =>
    if n ∈ vis then dfsRun fuel g stk vis res
    else
      dfsRun fuel g (((lookupG g n).getD []).map Frame.visit ++ Frame.finish n :: stk)
        (vis ++ [n]) res
  | fuel + 1, g, Frame.finish n :: stk, vis, res => dfsRun fuel g stk vis (res ++ [n])

/-- Console.tsort on parsed edge pairs, lines 1782 to 1810 of the source:
builds the graph, starts a depth-first search from every key in insertion
order, reverses the collected postorder and prints the nodes joined by
spaces; the function contains no cycle check of any kind. -/
def tsortRun (fuel : Nat) (edges : List (String × String)) : Option String :=
  let g := buildGraph edges
  match dfsRun fuel g (g.map (fun p => Frame.visit p.1)) [] [] with
  | some (_, res) => some (joinT res.reverse)
  | none => none

/-- A single whitespace-free token: nonempty and containing no whitespace
character.  Every token produced by pySplit has this shape. -/
def tokenOK (s : String) : Bool :=
  !s.data.isEmpty && s.data.all (fun c => !(isSpace c))

/-- States that every expansion stored in the alias table is a single
whitespace-free token. -/
def aliasesOK (m : List (String × String)) : Bool :=
  m.all (fun p => tokenOK p.2)

/-- C1: the claim that the path produced by FileSystem._full_path is
always a descendant of the root fails.  Resolving the user path ../x
against the current directory / under the root /root produces /root/../x,
whose normal form /x lies outside the root: the source joins strings
without ever normalizing dot-dot segments or checking containment. -/
theorem c1_full_path_escapes_root :
    isDescendant "/root" (full_path "/root" (pyJoin "/" "../x")) = false := by
  decide

/-- Auxiliary: with the self-referential alias a installed, the rebuilt
command line consisting of a and a trailing space never finishes
expanding, whatever the fuel. -/
theorem execCmd_self_alias_loop (isdir : String → Bool) (root : String)
    (output : String → List String → ConsoleState → List String) :
    ∀ fuel, execCmd isdir root output fuel aliasCycleState "a " = none := by
  intro fuel
  induction fuel with
  | zero => rfl
  | succ n ih => exact ih

/-- C2: the claim that Console.execute_command reports an alias-cycle
error on a cyclic alias chain fails.  The source has no depth bound and
no visited set: with the alias table mapping a to a, the input a rebuilds
the line a with a trailing space and recurses on it forever, so at every
recursion budget the call is still expanding instead of reporting an
alias-cycle error. -/
theorem c2_alias_cycle_diverges (isdir : String → Bool) (root : String)
    (output : String → List String → ConsoleState → List String) :
    ∀ fuel, execCmd isdir root output fuel aliasCycleState "a" = none := by
  intro fuel
  cases fuel with
  | zero => rfl
  | succ n => exact execCmd_self_alias_loop isdir root output n

/-- C3: the claim that cksum prints a CRC-32 checksum fails on every
nonempty readable file.  The loop body consults the undefined name
crc32_table on its first byte, so the command raises NameError instead of
printing a checksum line, for any file contents, size and name. -/
theorem c3_cksum_name_error (b : Nat) (bs : List Nat) (size : Nat) (fname : String) :
    cksumRun (b :: bs) size fname = PyEval.nameError := rfl

/-- C4: the claim that tsort detects cycles fails.  On the two-line input
with edges a to b and b to a the graph is cyclic, yet the code completes
the depth-first search and prints the line a b with no error of any kind;
the printed order even violates the edge from b to a. -/
theorem c4_tsort_cycle_silent :
    tsortRun 16 [("a", "b"), ("b", "a")] = some "a b" := by decide

/-- C7 counterexample: export and help are registered commands with no
entry in the help text table and no entry in the man pages table, so the
three tables are not in 1:1 sync over their key sets. -/
theorem c7_export_help_missing :
    ("export" ∈ registryKeys ∧ "export" ∉ helpKeys ∧ "export" ∉ manKeys) ∧
    ("help" ∈ registryKeys ∧ "help" ∉ helpKeys ∧ "help" ∉ manKeys) := by
  decide

/-- C7 amended: every registered command other than export and help has
both a help entry and a man entry, every help key and every man key is a
registered command, and the help and man tables have exactly the same
keys in the same order. -/
theorem c7_tables_sync_except_export_help :
    (registryKeys.all (fun c => c == "export" || c == "help" ||
        (helpKeys.contains c && manKeys.contains c))) = true ∧
    (helpKeys.all (fun c => registryKeys.contains c)) = true ∧
    manKeys = helpKeys := by
  refine ⟨by decide, by decide, by decide⟩

/-- C8: Console.cd called with an argument assigns the joined path to the
tracked current directory exactly when change_dir finds the resolved full
path to be an existing directory; otherwise the tracked directory is left
untouched and the directory-not-found message is printed. -/
theorem c8_cd_updates_iff_existing_dir (isdir : String → Bool) (root : String)
    (st : ConsoleState) (a0 : String) (rest : List String) :
    cd isdir root st (a0 :: rest) =
      if isdir (full_path root (pyJoin st.currentDir a0)) then
        { st with currentDir := pyJoin st.currentDir a0 }
      else
        { st with printed := st.printed ++ [cdNotFoundMsg] } := rfl

/-- Tokenizing a line made of nothing but whitespace yields no tokens. -/
theorem tokenizeAux_all_space : ∀ cs : List Char,
    (∀ c ∈ cs, isSpace c = true) → tokenizeAux cs [] = [] := by
  intro cs
  induction cs with
  | nil => intro _; rfl
  | cons c rest ih =>
    intro h
    have hc : isSpace c = true := h c (List.mem_cons_self c rest)
    simp only [tokenizeAux, hc, List.isEmpty_nil, if_true]
    exact ih fun x hx => h x (List.mem_cons_of_mem c hx)

/-- Splitting a line made of nothing but whitespace yields no tokens. -/
theorem pySplit_all_space (s : String) (h : s.data.all isSpace = true) :
    pySplit s = [] := by
  unfold pySplit
  rw [tokenizeAux_all_space s.data (by simpa using h)]
  rfl

/-- Stripping a line made of nothing but whitespace yields the empty
string. -/
theorem stripPy_all_space (s : String) (h : s.data.all isSpace = true) :
    stripPy s = "" := by
  unfold stripPy
  have h1 : s.data.dropWhile isSpace = [] := by
    rw [List.dropWhile_eq_nil_iff]
    simpa using h
  rw [h1]
  rfl

/-- A command line with no tokens makes execute_command return at once
with the state untouched, at any fuel. -/
theorem execCmd_no_tokens (isdir : String → Bool) (root : String)
    (output : String → List String → ConsoleState → List String)
    (fuel : Nat) (st : ConsoleState) (command : String)
    (h : pySplit command = []) :
    execCmd isdir root output fuel st command = some st := by
  cases fuel <;> simp [execCmd, execStep, h]

/-- C10: a line that is empty or contains only whitespace makes
execute_command return immediately with nothing printed and the alias
table, environment and current directory untouched; the stripped line is
empty, and the REPL iteration on such a line still appends the (stripped)
line to the command history before executing it. -/
theorem c10_blank_line_noop (isdir : String → Bool) (root : String)
    (output : String → List String → ConsoleState → List String)
    (fuel : Nat) (st : ConsoleState) (rawLine : String)
    (h : rawLine.data.all isSpace = true) :
    execCmd isdir root output fuel st rawLine = some st ∧
    stripPy rawLine = "" ∧
    replStep isdir root output fuel st rawLine =
      ReplResult.next { st with history := st.history ++ [""] } := by
  have hstrip : stripPy rawLine = "" := stripPy_all_space rawLine h
  refine ⟨execCmd_no_tokens isdir root output fuel st rawLine
      (pySplit_all_space rawLine h), hstrip, ?_⟩
  simp only [replStep, hstrip]
  rw [if_neg (by decide : ¬ (lowerPy "" = "exit"))]
  rw [execCmd_no_tokens isdir root output fuel
      { st with history := st.history ++ [""] } "" rfl]

/-- C10 witness: the two-space line at fuel 3 in the initial state. -/
theorem c10_blank_line_noop_witness :
    ("  ".data.all isSpace = true) ∧
    (execCmd (fun _ => false) "/root" (fun _ _ _ => []) 3 initState "  " = some initState ∧
     stripPy "  " = "" ∧
     replStep (fun _ => false) "/root" (fun _ _ _ => []) 3 initState "  " =
       ReplResult.next { initState with history := initState.history ++ [""] }) :=
  ⟨by decide,
   c10_blank_line_noop (fun _ => false) "/root" (fun _ _ _ => []) 3 initState "  " (by decide)⟩

/-- Every token produced by the whitespace tokenizer is nonempty and free
of whitespace, provided the running accumulator is. -/
theorem tokenizeAux_tokens : ∀ (cs acc : List Char),
    (∀ c ∈ acc, isSpace c = false) →
    ∀ t ∈ tokenizeAux cs acc, t ≠ [] ∧ ∀ c ∈ t, isSpace c = false := by
  intro cs
  induction cs with
  | nil =>
    intro acc hacc t ht
    simp only [tokenizeAux] at ht
    by_cases he : acc.isEmpty = true
    · simp [he] at ht
    · simp [he] at ht
      subst ht
      refine ⟨?_, ?_⟩
      · simp only [ne_eq, List.reverse_eq_nil_iff]
        intro hnil
        exact he (by simp [hnil])
      · intro c hc
        exact hacc c (List.mem_reverse.mp hc)
  | cons c rest ih =>
    intro acc hacc t ht
    simp only [tokenizeAux] at ht
    by_cases hs : isSpace c = true
    · simp only [hs, if_true] at ht
      by_cases he : acc.isEmpty = true
      · simp only [he, if_true] at ht
        exact ih [] (by simp) t ht
      · simp only [he, if_false] at ht
        rcases List.mem_cons.mp ht with hEq | hMem
        · subst hEq
          refine ⟨?_, ?_⟩
          · simp only [ne_eq, List.reverse_eq_nil_iff]
            intro hnil
            exact he (by simp [hnil])
          · intro x hx
            exact hacc x (List.mem_reverse.mp hx)
        · exact ih [] (by simp) t hMem
    · simp only [hs, if_false] at ht
      refine ih (c :: acc) ?_ t ht
      intro x hx
      rcases List.mem_cons.mp hx with hEq | hMem
      · subst hEq
        exact Bool.not_eq_true _ ▸ (Bool.eq_false_iff.mpr hs)
      · exact hacc x hMem

/-- Every token produced by pySplit is a whitespace-free token. -/
theorem pySplit_tokenOK (s : String) : ∀ t ∈ pySplit s, tokenOK t = true := by
  intro t ht
  unfold pySplit at ht
  rcases List.mem_map.mp ht with ⟨cs, hcs, rfl⟩
  obtain ⟨hne, hns⟩ := tokenizeAux_tokens s.data [] (by simp) cs hcs
  unfold tokenOK
  simp only [Bool.and_eq_true, Bool.not_eq_true', List.all_eq_true]
  constructor
  · simpa [List.isEmpty_iff] using hne
  · intro c hc
    exact hns c hc

/-- Dict insertion preserves the alias token invariant when the inserted
value is a token. -/
theorem insertA_aliasesOK (k v : String) (hv : tokenOK v = true) :
    ∀ m : List (String × String), aliasesOK m = true →
      aliasesOK (insertA m k v) = true := by
  intro m
  induction m with
  | nil =>
    intro _
    simp [insertA, aliasesOK, hv]
  | cons p rest ih =>
    intro hm
    simp only [aliasesOK, List.all_cons, Bool.and_eq_true] at hm
    by_cases hk : p.1 = k
    · simp [insertA, hk, aliasesOK, List.all_cons, hv, hm.2]
    · have hrest := ih hm.2
      simp only [insertA, hk, if_false, aliasesOK, List.all_cons, Bool.and_eq_true]
      exact ⟨hm.1, by simpa [aliasesOK] using hrest⟩

/-- Dict deletion preserves the alias token invariant. -/
theorem eraseA_aliasesOK (k : String) :
    ∀ m : List (String × String), aliasesOK m = true →
      aliasesOK (eraseA m k) = true := by
  intro m
  induction m with
  | nil =>
    intro _
    simp [eraseA, aliasesOK]
  | cons p rest ih =>
    intro hm
    simp only [aliasesOK, List.all_cons, Bool.and_eq_true] at hm
    by_cases hk : p.1 = k
    · simpa [eraseA, hk, aliasesOK] using hm.2
    · have hrest := ih hm.2
      simp only [eraseA, hk, if_false, aliasesOK, List.all_cons, Bool.and_eq_true]
      exact ⟨hm.1, by simpa [aliasesOK] using hrest⟩

/-- Handlers other than alias and unalias never change the alias table. -/
theorem runHandler_aliases_unchanged (isdir : String → Bool) (root : String)
    (output : String → List String → ConsoleState → List String)
    (cmd : String) (args : List String) (st : ConsoleState)
    (h1 : cmd ≠ "alias") (h2 : cmd ≠ "unalias") :
    (runHandler isdir root output cmd args st).aliases = st.aliases := by
  unfold runHandler
  rw [if_neg h1, if_neg h2]
  by_cases h3 : cmd = "export"
  · rw [if_pos h3]
    match args with
    | [] => rfl
    | [a0] => rfl
    | [a0, a1] => rfl
    | a0 :: a1 :: a2 :: rest => rfl
  · rw [if_neg h3]
    by_cases h4 : cmd = "cd"
    · rw [if_pos h4]
      cases args with
      | nil => rfl
      | cons a0 rest =>
        simp only [cd]
        split <;> rfl
    · rw [if_neg h4]
      by_cases h5 : cmd = "pwd"
      · rw [if_pos h5]
      · rw [if_neg h5]

/-- One dispatched handler preserves the alias token invariant when every
argument is a whitespace-free token. -/
theorem runHandler_aliasesOK (isdir : String → Bool) (root : String)
    (output : String → List String → ConsoleState → List String)
    (cmd : String) (args : List String) (st : ConsoleState)
    (hst : aliasesOK st.aliases = true)
    (hargs : ∀ a ∈ args, tokenOK a = true) :
    aliasesOK (runHandler isdir root output cmd args st).aliases = true := by
  by_cases h1 : cmd = "alias"
  · subst h1
    cases args with
    | nil => simpa [runHandler] using hst
    | cons a0 rest =>
      cases rest with
      | nil => simpa [runHandler] using hst
      | cons a1 rest2 =>
        cases rest2 with
        | nil =>
          have hv : tokenOK a1 = true := hargs a1 (by simp)
          simpa [runHandler] using insertA_aliasesOK a0 a1 hv st.aliases hst
        | cons a2 rest3 => simpa [runHandler] using hst
  · by_cases h2 : cmd = "unalias"
    · subst h2
      cases args with
      | nil => simpa [runHandler] using hst
      | cons a0 rest =>
        by_cases hlk : (lookupA st.aliases a0).isSome = true
        · simpa [runHandler, hlk] using eraseA_aliasesOK a0 st.aliases hst
        · simpa [runHandler, hlk] using hst
    · rw [runHandler_aliases_unchanged isdir root output cmd args st h1 h2]
      exact hst

/-- The bounded dispatcher preserves the alias token invariant: whenever
a call completes, the resulting alias table again holds only
whitespace-free tokens. -/
theorem execCmd_aliasesOK (isdir : String → Bool) (root : String)
    (output : String → List String → ConsoleState → List String) :
    ∀ (fuel : Nat) (st st2 : ConsoleState) (command : String),
      aliasesOK st.aliases = true →
      execCmd isdir root output fuel st command = some st2 →
      aliasesOK st2.aliases = true := by
  have step :
      ∀ (recurse : ConsoleState → String → Option ConsoleState),
        (∀ st st2 command, aliasesOK st.aliases = true →
            recurse st command = some st2 → aliasesOK st2.aliases = true) →
        ∀ st st2 command, aliasesOK st.aliases = true →
          execStep isdir root output recurse st command = some st2 →
          aliasesOK st2.aliases = true := by
    intro recurse hrec st st2 command h1 h2
    unfold execStep at h2
    cases hsp : pySplit command with
    | nil =>
      rw [hsp] at h2
      cases h2
      exact h1
    | cons p args =>
      rw [hsp] at h2
      simp only at h2
      cases hlk : lookupA st.aliases (lowerPy p) with
      | some exp =>
        rw [hlk] at h2
        exact hrec st st2 _ h1 h2
      | none =>
        rw [hlk] at h2
        by_cases hc : lowerPy p ∈ registryKeys
        · rw [if_pos hc] at h2
          cases h2
          refine runHandler_aliasesOK isdir root output (lowerPy p) args st h1 ?_
          intro a ha
          exact pySplit_tokenOK command a (hsp ▸ List.mem_cons_of_mem p ha)
        · rw [if_neg hc] at h2
          cases h2
          exact h1
  intro fuel
  induction fuel with
  | zero =>
    intro st st2 command h1 h2
    exact step (fun _ _ => none) (fun _ _ _ _ h => by cases h) st st2 command h1 h2
  | succ n ih =>
    intro st st2 command h1 h2
    exact step (execCmd isdir root output n) (fun a b c hx hy => ih a b c hx hy)
      st st2 command h1 h2

/-- C9: tokenization by whitespace and the two-argument guard of the
alias handler keep every stored alias expansion a single whitespace-free
token: if every value in the alias table is such a token and
execute_command completes on any input line, every value in the resulting
alias table is still a single whitespace-free token, so a multi-word
expansion can never be created (the table starts empty, where the
invariant holds vacuously). -/
theorem c9_alias_values_are_tokens (isdir : String → Bool) (root : String)
    (output : String → List String → ConsoleState → List String)
    (fuel : Nat) (st st2 : ConsoleState) (command : String)
    (h1 : aliasesOK st.aliases = true)
    (h2 : execCmd isdir root output fuel st command = some st2) :
    aliasesOK st2.aliases = true :=
  execCmd_aliasesOK isdir root output fuel st st2 command h1 h2

/-- C9 witness: executing the line alias x y from the initial state
stores the single-token expansion y. -/
theorem c9_alias_values_are_tokens_witness :
    (aliasesOK initState.aliases = true ∧
     execCmd (fun _ => false) "/root" (fun _ _ _ => []) 1 initState "alias x y" =
       some { initState with aliases := [("x", "y")],
                             printed := ["别名 x 已设置为 y"] }) ∧
    aliasesOK ({ initState with aliases := [("x", "y")],
                                printed := ["别名 x 已设置为 y"] } : ConsoleState).aliases = true :=
  ⟨⟨by decide, by decide⟩,
   c9_alias_values_are_tokens (fun _ => false) "/root" (fun _ _ _ => []) 1 initState
     { initState with aliases := [("x", "y")], printed := ["别名 x 已设置为 y"] }
     "alias x y" (by decide) (by decide)⟩

/-- Membership in the uniq loop output: exactly the input lines that are
not already in the seen list. -/
theorem uniqAux_mem : ∀ (ls seen : List String) (a : String),
    a ∈ uniqAux seen ls ↔ a ∈ ls ∧ a ∉ seen := by
  intro ls
  induction ls with
  | nil => simp [uniqAux]
  | cons l ls ih =>
    intro seen a
    by_cases hl : l ∈ seen
    · simp only [uniqAux, if_pos hl]
      rw [ih]
      constructor
      · rintro ⟨h1, h2⟩
        exact ⟨List.mem_cons_of_mem _ h1, h2⟩
      · rintro ⟨h1, h2⟩
        rcases List.mem_cons.mp h1 with rfl | h1
        · exact absurd hl h2
        · exact ⟨h1, h2⟩
    · simp only [uniqAux, if_neg hl]
      rw [List.mem_cons, ih]
      constructor
      · rintro (rfl | ⟨h1, h2⟩)
        · exact ⟨List.mem_cons_self _ _, hl⟩
        · exact ⟨List.mem_cons_of_mem _ h1, fun hs => h2 (List.mem_append_left _ hs)⟩
      · rintro ⟨h1, h2⟩
        by_cases hal : a = l
        · exact Or.inl hal
        · right
          rcases List.mem_cons.mp h1 with rfl | h1
          · exact absurd rfl hal
          · refine ⟨h1, fun hs => ?_⟩
            rcases List.mem_append.mp hs with hs | hs
            · exact h2 hs
            · exact hal (by simpa using hs)

/-- The uniq loop output has no duplicates. -/
theorem uniqAux_nodup : ∀ (ls seen : List String), (uniqAux seen ls).Nodup := by
  intro ls
  induction ls with
  | nil => intro seen; simp [uniqAux]
  | cons l ls ih =>
    intro seen
    by_cases hl : l ∈ seen
    · simp only [uniqAux, if_pos hl]
      exact ih seen
    · simp only [uniqAux, if_neg hl]
      rw [List.nodup_cons]
      refine ⟨fun hmem => ?_, ih (seen ++ [l])⟩
      rw [uniqAux_mem] at hmem
      exact hmem.2 (List.mem_append_right _ (by simp))

/-- The uniq loop emits at most as many lines as it reads. -/
theorem uniqAux_length : ∀ (ls seen : List String),
    (uniqAux seen ls).length ≤ ls.length := by
  intro ls
  induction ls with
  | nil => intro seen; simp [uniqAux]
  | cons l ls ih =>
    intro seen
    by_cases hl : l ∈ seen
    · simp only [uniqAux, if_pos hl, List.length_cons]
      exact Nat.le_succ_of_le (ih seen)
    · simp only [uniqAux, if_neg hl, List.length_cons]
      exact Nat.succ_le_succ (ih (seen ++ [l]))

/-- First-occurrence index across an append whose prefix misses the
element. -/
theorem firstIdx_append_not_mem : ∀ (pre t : List String) (a : String),
    a ∉ pre → firstIdx (pre ++ t) a = pre.length + firstIdx t a := by
  intro pre
  induction pre with
  | nil => intro t a _; simp [firstIdx]
  | cons b pre ih =>
    intro t a ha
    have hba : ¬ (b = a) := fun h => ha (h ▸ List.mem_cons_self b pre)
    simp only [List.cons_append, firstIdx, if_neg hba, List.length_cons, List.append_eq]
    rw [ih t a fun h => ha (List.mem_cons_of_mem _ h)]
    omega

/-- The uniq loop emits lines in strictly increasing order of first
occurrence in the whole input, where pre is the already consumed prefix
and seen records exactly the lines of that prefix. -/
theorem uniqAux_pairwise_firstIdx : ∀ (ls pre seen : List String),
    (∀ a, a ∈ seen ↔ a ∈ pre) →
    (uniqAux seen ls).Pairwise
      (fun a b => firstIdx (pre ++ ls) a < firstIdx (pre ++ ls) b) := by
  intro ls
  induction ls with
  | nil => intro pre seen _; simp [uniqAux]
  | cons l ls ih =>
    intro pre seen hiff
    by_cases hl : l ∈ seen
    · simp only [uniqAux, if_pos hl]
      have hiff2 : ∀ a, a ∈ seen ↔ a ∈ pre ++ [l] := by
        intro a
        rw [List.mem_append]
        constructor
        · intro h
          exact Or.inl ((hiff a).mp h)
        · rintro (h | h)
          · exact (hiff a).mpr h
          · have : a = l := by simpa using h
            exact this ▸ hl
      have := ih (pre ++ [l]) seen hiff2
      rw [List.append_assoc] at this
      simpa using this
    · simp only [uniqAux, if_neg hl]
      rw [List.pairwise_cons]
      constructor
      · intro b hb
        rw [uniqAux_mem] at hb
        have hlp : l ∉ pre := fun h => hl ((hiff l).mpr h)
        have hbp : b ∉ pre := fun h =>
          hb.2 (List.mem_append_left _ ((hiff b).mpr h))
        have hbl : ¬ (l = b) := fun h =>
          hb.2 (List.mem_append_right _ (by simp [h]))
        have h1 : firstIdx (pre ++ l :: ls) l = pre.length := by
          rw [firstIdx_append_not_mem pre _ l hlp]
          simp [firstIdx]
        have h2 : firstIdx (pre ++ l :: ls) b = pre.length + firstIdx (l :: ls) b :=
          firstIdx_append_not_mem pre _ b hbp
        rw [h1, h2]
        simp only [firstIdx, if_neg hbl]
        omega
      · have hiff3 : ∀ a, a ∈ seen ++ [l] ↔ a ∈ pre ++ [l] := by
          intro a
          rw [List.mem_append, List.mem_append, hiff a]
        have := ih (pre ++ [l]) (seen ++ [l]) hiff3
        rw [List.append_assoc] at this
        simpa using this

/-- C5: Console.uniq emits each distinct input line exactly once (no
duplicates, and a line appears in the output exactly when it appears in
the input), in strictly increasing order of first occurrence across the
whole file, and emits at most as many lines as the input has. -/
theorem c5_uniq_first_occurrence (lines : List String) :
    (uniqLines lines).Nodup ∧
    (∀ a, a ∈ uniqLines lines ↔ a ∈ lines) ∧
    (uniqLines lines).Pairwise
      (fun a b => firstIdx lines a < firstIdx lines b) ∧
    (uniqLines lines).length ≤ lines.length := by
  refine ⟨uniqAux_nodup lines [], ?_, ?_, uniqAux_length lines []⟩
  · intro a
    rw [uniqLines, uniqAux_mem]
    simp
  · have := uniqAux_pairwise_firstIdx lines [] [] (by simp)
    simpa using this

/-- The lexicographic comparison is irreflexive. -/
theorem lexLt_irrefl : ∀ as : List Char, lexLt as as = false := by
  intro as
  induction as with
  | nil => rfl
  | cons a as ih => simp [lexLt, lt_irrefl, ih]

/-- The lexicographic comparison is asymmetric. -/
theorem lexLt_asymm : ∀ as bs : List Char,
    lexLt as bs = true → lexLt bs as = false := by
  intro as
  induction as with
  | nil =>
    intro bs h
    cases bs with
    | nil => cases h
    | cons b bs => rfl
  | cons a as ih =>
    intro bs h
    cases bs with
    | nil => cases h
    | cons b bs =>
      simp only [lexLt] at h ⊢
      rcases lt_trichotomy a b with hab | hab | hab
      · rw [if_neg (lt_asymm hab), if_pos hab]
      · subst hab
        rw [if_neg (lt_irrefl a)] at h ⊢
        rw [if_neg (lt_irrefl a)] at h ⊢
        exact ih bs h
      · rw [if_neg (lt_asymm hab), if_pos hab] at h
        cases h

/-- The lexicographic comparison is transitive. -/
theorem lexLt_trans : ∀ as bs cs : List Char,
    lexLt as bs = true → lexLt bs cs = true → lexLt as cs = true := by
  intro as
  induction as with
  | nil =>
    intro bs cs h1 h2
    cases bs with
    | nil => cases h1
    | cons b bs =>
      cases cs with
      | nil => cases h2
      | cons c cs => rfl
  | cons a as ih =>
    intro bs cs h1 h2
    cases bs with
    | nil => cases h1
    | cons b bs =>
      cases cs with
      | nil => cases h2
      | cons c cs =>
        simp only [lexLt] at h1 h2 ⊢
        rcases lt_trichotomy a b with hab | hab | hab
        · rcases lt_trichotomy b c with hbc | hbc | hbc
          · rw [if_pos (lt_trans hab hbc)]
          · subst hbc
            rw [if_pos hab]
          · rw [if_neg (lt_asymm hbc), if_pos hbc] at h2
            cases h2
        · subst hab
          rw [if_neg (lt_irrefl a)] at h1
          rw [if_neg (lt_irrefl a)] at h1
          rcases lt_trichotomy a c with hac | hac | hac
          · rw [if_pos hac]
          · subst hac
            rw [if_neg (lt_irrefl a)] at h2 ⊢
            rw [if_neg (lt_irrefl a)] at h2 ⊢
            exact ih bs cs h1 h2
          · rw [if_neg (lt_asymm hac), if_pos hac] at h2
            cases h2
        · rw [if_neg (lt_asymm hab), if_pos hab] at h1
          cases h1

/-- Two lists neither of which lexicographically precedes the other are
equal. -/
theorem lexLt_total_eq : ∀ as bs : List Char,
    lexLt as bs = false → lexLt bs as = false → as = bs := by
  intro as
  induction as with
  | nil =>
    intro bs h1 _
    cases bs with
    | nil => rfl
    | cons b bs => cases h1
  | cons a as ih =>
    intro bs h1 h2
    cases bs with
    | nil => cases h2
    | cons b bs =>
      simp only [lexLt] at h1 h2
      rcases lt_trichotomy a b with hab | hab | hab
      · rw [if_pos hab] at h1
        cases h1
      · subst hab
        rw [if_neg (lt_irrefl a)] at h1 h2
        rw [if_neg (lt_irrefl a)] at h1 h2
        rw [ih bs h1 h2]
      · rw [if_pos hab] at h2
        cases h2

/-- The Python string comparison is irreflexive. -/
theorem strLt_irrefl (a : String) : strLt a a = false := lexLt_irrefl a.data

/-- The Python string comparison is transitive. -/
theorem strLt_trans {a b c : String} (h1 : strLt a b = true)
    (h2 : strLt b c = true) : strLt a c = true :=
  lexLt_trans a.data b.data c.data h1 h2

/-- Two strings neither of which precedes the other are equal. -/
theorem strLt_total_eq {a b : String} (h1 : strLt a b = false)
    (h2 : strLt b a = false) : a = b := by
  have h := lexLt_total_eq a.data b.data h1 h2
  cases a with
  | mk da =>
    cases b with
    | mk db =>
      simp only at h
      rw [h]

/-- A string never equals one it strictly precedes. -/
theorem strLt_ne {a b : String} (h : strLt a b = true) : a ≠ b := by
  intro he
  rw [he, strLt_irrefl] at h
  cases h

/-- Selecting a category from a cons whose tag matches. -/
theorem commTagged_cons_same (t : CommTag) (a : String)
    (out : List (CommTag × String)) :
    commTagged t ((t, a) :: out) = a :: commTagged t out := by
  simp [commTagged]

/-- Selecting a category from a cons whose tag differs. -/
theorem commTagged_cons_ne (t u : CommTag) (a : String)
    (out : List (CommTag × String)) (h : ¬ (u = t)) :
    commTagged t ((u, a) :: out) = commTagged t out := by
  simp [commTagged, h]

/-- The right-category lines of an all-right tail are the lines
themselves. -/
theorem commTagged_rights (l : List String) :
    commTagged CommTag.right (l.map fun b => (CommTag.right, b)) = l := by
  induction l with
  | nil => rfl
  | cons b l ih => simp [commTagged] at ih ⊢; exact ih

/-- An all-right tail contributes nothing to the left category. -/
theorem commTagged_left_rights (l : List String) :
    commTagged CommTag.left (l.map fun b => (CommTag.right, b)) = [] := by
  simp [commTagged]

/-- An all-right tail contributes nothing to the both category. -/
theorem commTagged_both_rights (l : List String) :
    commTagged CommTag.both (l.map fun b => (CommTag.right, b)) = [] := by
  simp [commTagged]

/-- A filter and the filter of its negation split the length of a list. -/
theorem length_filter_partition {α : Type} (p : α → Bool) :
    ∀ l : List α, (l.filter p).length + (l.filter (fun x => !(p x))).length = l.length := by
  intro l
  induction l with
  | nil => rfl
  | cons x l ih =>
    cases hx : p x <;> simp [List.filter_cons, hx] <;> omega

/-- Unfolding equation of the merge walk: empty left side. -/
theorem commMerge_nil_left (l2 : List String) :
    commMerge [] l2 = l2.map (fun b => (CommTag.right, b)) := by
  simp [commMerge]

/-- Unfolding equation of the merge walk: empty right side. -/
theorem commMerge_cons_nil (a : String) (l1 : List String) :
    commMerge (a :: l1) [] = (CommTag.left, a) :: commMerge l1 [] := by
  simp [commMerge]

/-- Unfolding equation of the merge walk: smaller left head. -/
theorem commMerge_cons_lt {a b : String} {l1 l2 : List String}
    (h : strLt a b = true) :
    commMerge (a :: l1) (b :: l2) = (CommTag.left, a) :: commMerge l1 (b :: l2) := by
  simp only [commMerge]
  rw [if_pos h]

/-- Unfolding equation of the merge walk: smaller right head. -/
theorem commMerge_cons_gt {a b : String} {l1 l2 : List String}
    (h1 : strLt a b = false) (h2 : strLt b a = true) :
    commMerge (a :: l1) (b :: l2) = (CommTag.right, b) :: commMerge (a :: l1) l2 := by
  simp only [commMerge]
  rw [if_neg (by simp [h1]), if_pos h2]

/-- Unfolding equation of the merge walk: equal heads. -/
theorem commMerge_cons_eq {a b : String} {l1 l2 : List String}
    (h1 : strLt a b = false) (h2 : strLt b a = false) :
    commMerge (a :: l1) (b :: l2) = (CommTag.both, a) :: commMerge l1 l2 := by
  simp only [commMerge]
  rw [if_neg (by simp [h1]), if_neg (by simp [h2])]

/-- The three categories of the merge walk on sorted duplicate-free lists
are exactly the left-only, right-only and common lines, each in order. -/
theorem commMerge_filters : ∀ l1 l2 : List String, SortedLt l1 → SortedLt l2 →
    commTagged CommTag.left (commMerge l1 l2) =
      l1.filter (fun a => decide (¬ a ∈ l2)) ∧
    commTagged CommTag.right (commMerge l1 l2) =
      l2.filter (fun b => decide (¬ b ∈ l1)) ∧
    commTagged CommTag.both (commMerge l1 l2) =
      l1.filter (fun a => decide (a ∈ l2)) := by
  intro l1
  induction l1 with
  | nil =>
    intro l2 _ _
    rw [commMerge_nil_left]
    refine ⟨?_, ?_, ?_⟩
    · rw [commTagged_left_rights]
      rfl
    · rw [commTagged_rights]
      simp
    · rw [commTagged_both_rights]
      rfl
  | cons a l1 ih =>
    intro l2 h1all
    obtain ⟨ha, h1⟩ := List.pairwise_cons.mp h1all
    induction l2 with
    | nil =>
      intro _
      rw [commMerge_cons_nil]
      obtain ⟨le, ri, bo⟩ := ih [] h1 List.Pairwise.nil
      refine ⟨?_, ?_, ?_⟩
      · rw [commTagged_cons_same, le]
        simp
      · rw [commTagged_cons_ne CommTag.right CommTag.left _ _ (by decide), ri]
        rfl
      · rw [commTagged_cons_ne CommTag.both CommTag.left _ _ (by decide), bo]
        simp
    | cons b l2 ihInner =>
      intro h2all
      obtain ⟨hb, h2⟩ := List.pairwise_cons.mp h2all
      cases hab : strLt a b with
      | true =>
        rw [commMerge_cons_lt hab]
        obtain ⟨le, ri, bo⟩ := ih (b :: l2) h1 h2all
        have hanb : ¬ a ∈ b :: l2 := by
          intro hmem
          rcases List.mem_cons.mp hmem with rfl | hmem
          · rw [strLt_irrefl] at hab
            cases hab
          · have hba := hb a hmem
            have htr := strLt_trans hab hba
            rw [strLt_irrefl] at htr
            cases htr
        refine ⟨?_, ?_, ?_⟩
        · rw [commTagged_cons_same, le, List.filter_cons,
            if_pos (decide_eq_true hanb)]
        · rw [commTagged_cons_ne CommTag.right CommTag.left _ _ (by decide), ri]
          refine List.filter_congr ?_
          intro x hx
          have hxa : ¬ x = a := fun h => hanb (h ▸ hx)
          rw [decide_eq_decide]
          simp [List.mem_cons, hxa]
        · rw [commTagged_cons_ne CommTag.both CommTag.left _ _ (by decide), bo,
            List.filter_cons, if_neg (by simpa using hanb)]
      | false =>
        cases hba : strLt b a with
        | true =>
          rw [commMerge_cons_gt hab hba]
          obtain ⟨le, ri, bo⟩ := ihInner h2
          have hbna : ¬ b ∈ a :: l1 := by
            intro hmem
            rcases List.mem_cons.mp hmem with rfl | hmem
            · rw [strLt_irrefl] at hba
              cases hba
            · have hax := ha b hmem
              rw [hab] at hax
              cases hax
          refine ⟨?_, ?_, ?_⟩
          · rw [commTagged_cons_ne CommTag.left CommTag.right _ _ (by decide), le]
            refine List.filter_congr ?_
            intro x hx
            have hxb : ¬ x = b := fun h => hbna (h ▸ hx)
            rw [decide_eq_decide]
            simp [List.mem_cons, hxb]
          · rw [commTagged_cons_same, ri, List.filter_cons,
              if_pos (decide_eq_true hbna)]
          · rw [commTagged_cons_ne CommTag.both CommTag.right _ _ (by decide), bo]
            refine List.filter_congr ?_
            intro x hx
            have hxb : ¬ x = b := fun h => hbna (h ▸ hx)
            rw [decide_eq_decide]
            simp [List.mem_cons, hxb]
        | false =>
          have heq : a = b := strLt_total_eq hab hba
          subst heq
          rw [commMerge_cons_eq hab hba]
          obtain ⟨le, ri, bo⟩ := ih l2 h1 h2
          have hanl1 : ¬ a ∈ l1 := by
            intro hmem
            have hax := ha a hmem
            rw [strLt_irrefl] at hax
            cases hax
          have hanl2 : ¬ a ∈ l2 := by
            intro hmem
            have hax := hb a hmem
            rw [strLt_irrefl] at hax
            cases hax
          refine ⟨?_, ?_, ?_⟩
          · rw [commTagged_cons_ne CommTag.left CommTag.both _ _ (by decide), le,
              List.filter_cons, if_neg (by simp)]
            refine List.filter_congr ?_
            intro x hx
            have hxa : ¬ x = a := fun h => hanl1 (h ▸ hx)
            rw [decide_eq_decide]
            simp [List.mem_cons, hxa]
          · rw [commTagged_cons_ne CommTag.right CommTag.both _ _ (by decide), ri,
              List.filter_cons, if_neg (by simp)]
            refine List.filter_congr ?_
            intro x hx
            have hxa : ¬ x = a := fun h => hanl2 (h ▸ hx)
            rw [decide_eq_decide]
            simp [List.mem_cons, hxa]
          · rw [commTagged_cons_same, bo, List.filter_cons, if_pos (by simp)]
            congr 1
            refine List.filter_congr ?_
            intro x hx
            have hxa : ¬ x = a := fun h => hanl1 (h ▸ hx)
            rw [decide_eq_decide]
            simp [List.mem_cons, hxa]

/-- C6: on the two sorted duplicate-free line lists Console.comm builds
from its input files, the merge walk partitions the union of the two line
sets into three pairwise disjoint categories, lines only in the first
file, lines only in the second, and lines in both (the membership
characterizations make the categories mutually exclusive), and the three
category sizes add up to the size of the union. -/
theorem c6_comm_partitions (l1 l2 : List String)
    (h1 : SortedLt l1) (h2 : SortedLt l2) :
    (∀ x, x ∈ commTagged CommTag.left (commMerge l1 l2) ↔ x ∈ l1 ∧ ¬ x ∈ l2) ∧
    (∀ x, x ∈ commTagged CommTag.right (commMerge l1 l2) ↔ x ∈ l2 ∧ ¬ x ∈ l1) ∧
    (∀ x, x ∈ commTagged CommTag.both (commMerge l1 l2) ↔ x ∈ l1 ∧ x ∈ l2) ∧
    (commTagged CommTag.left (commMerge l1 l2)).length
      + (commTagged CommTag.right (commMerge l1 l2)).length
      + (commTagged CommTag.both (commMerge l1 l2)).length
      = (l1.toFinset ∪ l2.toFinset).card := by
  obtain ⟨le, ri, bo⟩ := commMerge_filters l1 l2 h1 h2
  have nd1 : l1.Nodup := h1.imp (fun h => strLt_ne h)
  have nd2 : l2.Nodup := h2.imp (fun h => strLt_ne h)
  refine ⟨?_, ?_, ?_, ?_⟩
  · intro x
    rw [le, List.mem_filter]
    simp
  · intro x
    rw [ri, List.mem_filter]
    simp
  · intro x
    rw [bo, List.mem_filter]
    simp
  · rw [le, ri, bo]
    have hsplit : (l1.filter (fun a => decide (¬ a ∈ l2))).length
        + (l1.filter (fun a => decide (a ∈ l2))).length = l1.length := by
      have hp := length_filter_partition (fun a => decide (a ∈ l2)) l1
      simp only [decide_not]
      omega
    have hunion : (l1.toFinset ∪ l2.toFinset).card
        = l1.length + (l2.filter (fun b => decide (¬ b ∈ l1))).length := by
      rw [← Finset.union_sdiff_self_eq_union,
        Finset.card_union_of_disjoint Finset.disjoint_sdiff]
      congr 1
      · exact List.toFinset_card_of_nodup nd1
      · have hset : l2.toFinset \ l1.toFinset
            = (l2.filter (fun b => decide (¬ b ∈ l1))).toFinset := by
          ext x
          simp [List.mem_filter]
        rw [hset, List.toFinset_card_of_nodup (nd2.filter _)]
    rw [hunion]
    omega

/-- C6 witness: the sorted duplicate-free inputs a b and b c. -/
theorem c6_comm_partitions_witness :
    (SortedLt ["a", "b"] ∧ SortedLt ["b", "c"]) ∧
    (commTagged CommTag.left (commMerge ["a", "b"] ["b", "c"])).length
      + (commTagged CommTag.right (commMerge ["a", "b"] ["b", "c"])).length
      + (commTagged CommTag.both (commMerge ["a", "b"] ["b", "c"])).length
      = ((["a", "b"] : List String).toFinset ∪ (["b", "c"] : List String).toFinset).card :=
  ⟨⟨show List.Pairwise (fun a b => strLt a b = true) ["a", "b"] from by decide,
    show List.Pairwise (fun a b => strLt a b = true) ["b", "c"] from by decide⟩,
   (c6_comm_partitions ["a", "b"] ["b", "c"]
     (show List.Pairwise (fun a b => strLt a b = true) ["a", "b"] from by decide)
     (show List.Pairwise (fun a b => strLt a b = true) ["b", "c"] from by decide)).2.2.2⟩

end GTOS
